import Mathlib

/-!
Verification development for the afterlife-backend event indexer and API.

The definitions below are shallow embeddings of the Rust sources:
  src/backend/queries.rs    (balance replay queries)
  src/backend/usernames.rs  (points_to_level)
  src/backend/api.rs        (leaderboard cache)
  src/indexer/queries.rs    (event store writes, reconciliation)
  src/indexer/remote_calls.rs (ERC-721 decode, retry loop)

Machine integers are modelled as Nat/Int (with explicit wrapping where the
source casts), f64 arithmetic as exact rationals, and the database as explicit
lists of rows.
-/

namespace Afterlife

/-- Model of Rust `str::to_lowercase` / SQL `LOWER` on the ASCII strings used
for addresses and names: lowercase every character. -/
def lowerStr (s : String) : String :=
  String.mk (s.data.map Char.toLower)

/-- Model of the Rust cast `v as i64` applied to a `u64` value `v < 2^64`:
values at or above `2^63` wrap to negatives. -/
def toI64 (v : ℕ) : ℤ :=
  if v < 2 ^ 63 then (v : ℤ) else (v : ℤ) - 2 ^ 64

/-! ### Model of `serde_json::from_str::<Vec<u64>>`

The backend parses the `ids` and `values` columns with
`serde_json::from_str::<Vec<u64>>(s).ok()`.  The parser below accepts a JSON
array of decimal naturals, each below `2^64` (serde fails the whole parse on a
`u64` overflow), with ASCII whitespace allowed between tokens, and rejects
everything else.  (JSON's ban on leading zeros in numbers is not modelled; the
strings appearing in the development contain none.) -/

def skipWs : List Char → List Char
  | [] => []
  | c :: cs => if c = ' ' ∨ c = '\t' ∨ c = '\n' ∨ c = '\r' then skipWs cs else c :: cs

/-- Consume leading decimal digits, accumulating their value. -/
def digitsToNat (acc : ℕ) : List Char → ℕ × List Char
  | [] => (acc, [])
  | c :: cs => if c.isDigit then digitsToNat (acc * 10 + (c.toNat - 48)) cs else (acc, c :: cs)

/-- Parse one decimal number (at least one digit required). -/
def parseNum (cs : List Char) : Option (ℕ × List Char) :=
  match cs with
  | [] => none
  | c :: cs' => if c.isDigit then some (digitsToNat 0 (c :: cs')) else none

/-- After the first element: repeatedly expect `,` followed by a number, or the
closing `]` followed only by whitespace. -/
def parseElemsAux : ℕ → List Char → List ℕ → Option (List ℕ)
  | 0, _, _ => none
  | fuel + 1, cs, acc =>
    match skipWs cs with
    | ']' :: rest => if skipWs rest = [] then some acc.reverse else none
    | ',' :: rest =>
      match parseNum (skipWs rest) with
      | some (n, rest') => if n < 2 ^ 64 then parseElemsAux fuel rest' (n :: acc) else none
      | none => none
    | _ => none

/-- Model of `serde_json::from_str::<Vec<u64>>`: `none` is serde's `Err`. -/
def parseU64Array (s : String) : Option (List ℕ) :=
  match skipWs s.data with
  | '[' :: rest =>
    match skipWs rest with
    | ']' :: rest' => if skipWs rest' = [] then some [] else none
    | cs =>
      match parseNum cs with
      | some (n, rest') => if n < 2 ^ 64 then parseElemsAux s.length rest' [n] else none
      | none => none
  | _ => none

/-! ### Backend event rows

`backend::queries::Event` (src/backend/queries.rs lines 12-27): the four
columns selected by the per-collection queries, all nullable. -/

structure Row where
  from_address : Option String
  to_address : Option String
  ids : Option String
  values : Option String
deriving DecidableEq

/-- `event.ids.as_deref().and_then(|s| from_str(s).ok()).unwrap_or_default()`. -/
def idsOf (e : Row) : List ℕ :=
  (e.ids.bind parseU64Array).getD []

/-- The `values` column parsed as `Vec<u64>` then mapped with `v as i64`
(lines 68-75 of src/backend/queries.rs). -/
def valsOf (e : Row) : List ℤ :=
  ((e.values.bind parseU64Array).getD []).map toI64

/-- The `values` column parsed as `Vec<u64>` and left unsigned
(used by `get_entire_collection`, lines 138-142). -/
def valsU64 (e : Row) : List ℕ :=
  (e.values.bind parseU64Array).getD []

/-- Does the row's `to_address` match the wallet after lowercasing
(`to_address.to_lowercase() == wallet_address_lowercase`)?  A NULL column
never matches. -/
def toMatchesB (w : String) (e : Row) : Bool :=
  match e.to_address with
  | some t => lowerStr t = w
  | none => false

/-- Does the row's `from_address` match the wallet after lowercasing? -/
def fromMatchesB (w : String) (e : Row) : Bool :=
  match e.from_address with
  | some f => lowerStr f = w
  | none => false

/-- Pointwise update of a balance map at one key, modelling
`*balances.entry(id).or_insert(0) += d` on a `HashMap<u64, i64>`. -/
def addAt (b : ℕ → ℤ) (i : ℕ) (d : ℤ) : ℕ → ℤ :=
  fun j => if j = i then b j + d else b j

/-- One `(id, value)` pair of one event applied to the balance map: add when
`to` matches the wallet, then subtract when `from` matches
(src/backend/queries.rs lines 77-88). -/
def applyPairBal (w : String) (e : Row) (b : ℕ → ℤ) (p : ℕ × ℤ) : ℕ → ℤ :=
  let b1 := if toMatchesB w e then addAt b p.1 p.2 else b
  if fromMatchesB w e then addAt b1 p.1 (-p.2) else b1

/-- One event row applied to the balance map: iterate over
`ids.iter().zip(values.iter())`. -/
def applyRowBal (w : String) (b : ℕ → ℤ) (e : Row) : ℕ → ℤ :=
  (List.zip (idsOf e) (valsOf e)).foldl (applyPairBal w e) b

/-- The `balances` map accumulated over all rows (before the positivity
filter), as a total function defaulting to 0. -/
def balancesFn (w : String) (rows : List Row) : ℕ → ℤ :=
  rows.foldl (applyRowBal w) (fun _ => 0)

/-- Model of `get_entire_collection_for_address` (src/backend/queries.rs lines
28-97) as a pure function of the selected rows: replay the events into the
balance map, then `balances.retain(|_, v| v > 0)`.  The returned map is
modelled by its lookup function: a key is present (`some b`) exactly when its
replayed balance `b` is positive, since an entry is created only when some pair
touches the key, and an untouched key has balance 0.  The SQL `WHERE` clause
restricting rows to those touching the wallet is redundant with the in-loop
address checks and is not repeated here. -/
def get_entire_collection_for_address (wallet : String) (rows : List Row) : ℕ → Option ℤ :=
  fun i =>
    let b := balancesFn (lowerStr wallet) rows i
    if 0 < b then some b else none

/-! ### The claimed replay formula (spec section 8, invariant 1) -/

/-- Sum of the values an event assigns to token `i` across its
`ids.zip(values)` pairs. -/
def matchedSum (e : Row) (i : ℕ) : ℤ :=
  (((List.zip (idsOf e) (valsOf e)).filter (fun p => p.1 = i)).map Prod.snd).sum

/-- The spec formula: per token id, the sum of values of events with
`to == W` minus the sum of values of events with `from == W`. -/
def netSpec (w : String) (rows : List Row) (i : ℕ) : ℤ :=
  ((rows.filter (toMatchesB w)).map (fun e => matchedSum e i)).sum -
    ((rows.filter (fromMatchesB w)).map (fun e => matchedSum e i)).sum

/-- Signed coefficient of one row for a given wallet: +1 for an incoming
event, -1 for an outgoing one, 0 (or both) otherwise. -/
def balCoeff (w : String) (e : Row) : ℤ :=
  (if toMatchesB w e then 1 else 0) - (if fromMatchesB w e then 1 else 0)

lemma applyPairBal_at (w : String) (e : Row) (b : ℕ → ℤ) (p : ℕ × ℤ) (i : ℕ) :
    applyPairBal w e b p i = b i + (if p.1 = i then balCoeff w e * p.2 else 0) := by
  obtain ⟨pi, pv⟩ := p
  unfold applyPairBal balCoeff addAt
  by_cases hi : pi = i
  · subst hi
    by_cases ht : toMatchesB w e <;> by_cases hf : fromMatchesB w e <;>
      simp [ht, hf] <;> ring
  · have hi' : ¬ i = pi := fun h => hi h.symm
    by_cases ht : toMatchesB w e <;> by_cases hf : fromMatchesB w e <;>
      simp [ht, hf, hi, hi']

lemma zip_fold_at (w : String) (e : Row) (l : List (ℕ × ℤ)) (b : ℕ → ℤ) (i : ℕ) :
    l.foldl (applyPairBal w e) b i =
      b i + (l.map (fun p => if p.1 = i then balCoeff w e * p.2 else 0)).sum := by
  induction l generalizing b with
  | nil => simp
  | cons p l ih =>
    simp only [List.foldl_cons, List.map_cons, List.sum_cons]
    rw [ih, applyPairBal_at]
    ring

lemma applyRowBal_at (w : String) (e : Row) (b : ℕ → ℤ) (i : ℕ) :
    applyRowBal w b e i = b i + balCoeff w e * matchedSum e i := by
  unfold applyRowBal matchedSum
  rw [zip_fold_at]
  congr 1
  generalize List.zip (idsOf e) (valsOf e) = l
  induction l with
  | nil => simp
  | cons p l ih =>
    by_cases hi : p.1 = i <;> simp [List.filter_cons, hi, ih] <;> ring

lemma balancesFn_fold_at (w : String) (rows : List Row) (b : ℕ → ℤ) (i : ℕ) :
    rows.foldl (applyRowBal w) b i =
      b i + (rows.map (fun e => balCoeff w e * matchedSum e i)).sum := by
  induction rows generalizing b with
  | nil => simp
  | cons e rows ih =>
    simp only [List.foldl_cons, List.map_cons, List.sum_cons]
    rw [ih, applyRowBal_at]
    ring

lemma coeff_sum_eq_netSpec (w : String) (rows : List Row) (i : ℕ) :
    (rows.map (fun e => balCoeff w e * matchedSum e i)).sum = netSpec w rows i := by
  unfold netSpec balCoeff
  induction rows with
  | nil => simp
  | cons e rows ih =>
    by_cases ht : toMatchesB w e <;> by_cases hf : fromMatchesB w e <;>
      simp [List.filter_cons, ht, hf, ih] <;> ring_nf <;> omega

lemma balancesFn_eq_netSpec (w : String) (rows : List Row) (i : ℕ) :
    balancesFn w rows i = netSpec w rows i := by
  unfold balancesFn
  rw [balancesFn_fold_at, coeff_sum_eq_netSpec]
  simp

lemma netSpec_perm (w : String) {rows rows' : List Row} (h : rows.Perm rows') (i : ℕ) :
    netSpec w rows i = netSpec w rows' i := by
  unfold netSpec
  rw [List.Perm.sum_eq (List.Perm.map _ (List.Perm.filter _ h)),
    List.Perm.sum_eq (List.Perm.map _ (List.Perm.filter _ h))]

/-- C4: the per-collection balance query replays to the spec's signed sums,
keeps exactly the ids with positive net balance, and is order-independent. -/
theorem get_entire_collection_for_address_replay (wallet : String)
    (rows rows' : List Row) (i : ℕ) :
    (get_entire_collection_for_address wallet rows i =
      if 0 < netSpec (lowerStr wallet) rows i then some (netSpec (lowerStr wallet) rows i)
      else none) ∧
    (rows.Perm rows' →
      get_entire_collection_for_address wallet rows =
        get_entire_collection_for_address wallet rows') := by
  constructor
  · unfold get_entire_collection_for_address
    rw [balancesFn_eq_netSpec]
  · intro hperm
    funext j
    unfold get_entire_collection_for_address
    rw [balancesFn_eq_netSpec, balancesFn_eq_netSpec, netSpec_perm (lowerStr wallet) hperm]

/-- Witness for C4 at concrete rows: a mint of 3 of token 7 followed by a
transfer away of 1, in both orders. -/
theorem get_entire_collection_for_address_replay_witness :
    (get_entire_collection_for_address "0xAb"
        [⟨some "0x00", some "0xab", some "[7]", some "[3]"⟩,
         ⟨some "0xAB", some "0xcd", some "[7]", some "[1]"⟩] 7 =
      if 0 < netSpec (lowerStr "0xAb")
          [⟨some "0x00", some "0xab", some "[7]", some "[3]"⟩,
           ⟨some "0xAB", some "0xcd", some "[7]", some "[1]"⟩] 7 then
        some (netSpec (lowerStr "0xAb")
          [⟨some "0x00", some "0xab", some "[7]", some "[3]"⟩,
           ⟨some "0xAB", some "0xcd", some "[7]", some "[1]"⟩] 7)
      else none) ∧
    get_entire_collection_for_address "0xAb"
        [⟨some "0x00", some "0xab", some "[7]", some "[3]"⟩,
         ⟨some "0xAB", some "0xcd", some "[7]", some "[1]"⟩] =
      get_entire_collection_for_address "0xAb"
        [⟨some "0xAB", some "0xcd", some "[7]", some "[1]"⟩,
         ⟨some "0x00", some "0xab", some "[7]", some "[3]"⟩] :=
  ⟨(get_entire_collection_for_address_replay "0xAb"
      [⟨some "0x00", some "0xab", some "[7]", some "[3]"⟩,
       ⟨some "0xAB", some "0xcd", some "[7]", some "[1]"⟩]
      [⟨some "0xAB", some "0xcd", some "[7]", some "[1]"⟩,
       ⟨some "0x00", some "0xab", some "[7]", some "[3]"⟩] 7).1,
   (get_entire_collection_for_address_replay "0xAb"
      [⟨some "0x00", some "0xab", some "[7]", some "[3]"⟩,
       ⟨some "0xAB", some "0xcd", some "[7]", some "[1]"⟩]
      [⟨some "0xAB", some "0xcd", some "[7]", some "[1]"⟩,
       ⟨some "0x00", some "0xab", some "[7]", some "[3]"⟩] 7).2 (by decide)⟩

/-! ### Full-collection rows

`get_user_full_collection` (src/backend/queries.rs lines 236-309) selects rows
tagged with chain name and contract address; its `from_address`, `to_address`,
`ids` and `values` columns are read as non-nullable strings. -/

structure FullRow where
  chain_name : String
  contract_address : String
  from_address : String
  to_address : String
  ids : String
  values : String
deriving DecidableEq

def fullIdsOf (r : FullRow) : List ℕ :=
  (parseU64Array r.ids).getD []

def fullValsOf (r : FullRow) : List ℤ :=
  ((parseU64Array r.values).getD []).map toI64

/-- Update of the three-level `chain → contract → token → i64` map at one leaf,
modelling the nested `entry(..).or_insert_with(..)` chain. -/
def addAt3 (b : String → String → ℕ → ℤ) (c a : String) (i : ℕ) (d : ℤ) :
    String → String → ℕ → ℤ :=
  fun c' a' i' => if c' = c ∧ a' = a ∧ i' = i then b c' a' i' + d else b c' a' i'

/-- The `adjust_balance` closure applied to one `(id, value)` pair of one row
(src/backend/queries.rs lines 271-290): add when the event's `to` matches the
wallet, then subtract when its `from` matches. -/
def applyFullPair (w : String) (r : FullRow) (b : String → String → ℕ → ℤ)
    (p : ℕ × ℤ) : String → String → ℕ → ℤ :=
  let b1 := if lowerStr r.to_address = w then
    addAt3 b r.chain_name r.contract_address p.1 p.2 else b
  if lowerStr r.from_address = w then
    addAt3 b1 r.chain_name r.contract_address p.1 (-p.2) else b1

def applyFullRow (w : String) (b : String → String → ℕ → ℤ) (r : FullRow) :
    String → String → ℕ → ℤ :=
  (List.zip (fullIdsOf r) (fullValsOf r)).foldl (applyFullPair w r) b

def userBal (w : String) (rows : List FullRow) : String → String → ℕ → ℤ :=
  rows.foldl (applyFullRow w) (fun _ _ _ => 0)

/-- Model of `get_user_full_collection` (src/backend/queries.rs lines 236-309)
as a pure function of the selected rows, observed through leaf lookups: replay
all rows, then `contract_balances.retain(|_, v| v != 0)` keeps every NONZERO
balance (negative ones included), and the removal of empty contract and chain
maps does not change any leaf lookup.  A leaf is present (`some b`) exactly
when its replayed balance `b` is nonzero, since a leaf entry is created only
when a pair touches it and an untouched leaf has balance 0.  The SQL `WHERE`
clause restricting rows to those touching the wallet is redundant with the
checks inside `adjust_balance` and is not repeated here. -/
def get_user_full_collection (wallet : String) (rows : List FullRow) :
    String → String → ℕ → Option ℤ :=
  fun c a i =>
    let b := userBal (lowerStr wallet) rows c a i
    if b ≠ 0 then some b else none

/-! ### Token owners query -/

/-- Update of the `owners : HashMap<String, i64>` map; the key is the raw
stored address string, with no lowercasing (src/backend/queries.rs line 214). -/
def addAtS (b : String → ℤ) (a : String) (d : ℤ) : String → ℤ :=
  fun a' => if a' = a then b a' + d else b a'

/-- One `(id, value)` pair applied to the owners map: only pairs of the
requested token count; credit the `to` address, debit the `from` address
(src/backend/queries.rs lines 211-220). -/
def applyOwnerPair (tid : ℕ) (e : Row) (b : String → ℤ) (p : ℕ × ℤ) : String → ℤ :=
  if p.1 = tid then
    let b1 := match e.to_address with
      | some t => addAtS b t p.2
      | none => b
    match e.from_address with
    | some f => addAtS b1 f (-p.2)
    | none => b1
  else b

def ownersBal (rows : List Row) (tid : ℕ) : String → ℤ :=
  rows.foldl (fun b e => (List.zip (idsOf e) (valsOf e)).foldl (applyOwnerPair tid e) b)
    (fun _ => 0)

def deadLower : String := "0x000000000000000000000000000000000000dead"

def deadMixed : String := "0x000000000000000000000000000000000000dEaD"

/-- Model of `get_token_owners` (src/backend/queries.rs lines 167-234), observed
as membership of an address in the returned list: the two spellings of the dead
address are removed, then addresses with positive balance are kept.  (An
address with nonzero balance necessarily has a map entry, so membership is
determined by the balance.) -/
def get_token_owners (rows : List Row) (tid : ℕ) (a : String) : Bool :=
  decide (a ≠ deadLower) && decide (a ≠ deadMixed) && decide (0 < ownersBal rows tid a)

/-! ### C10: rows whose ids or values fail to parse contribute nothing -/

lemma applyRowBal_badParse (w : String) (b : ℕ → ℤ) (r : Row)
    (h : r.ids.bind parseU64Array = none ∨ r.values.bind parseU64Array = none) :
    applyRowBal w b r = b := by
  unfold applyRowBal
  rcases h with h | h
  · simp [idsOf, h]
  · simp [valsOf, h]

lemma applyFullRow_badParse (w : String) (b : String → String → ℕ → ℤ) (r : FullRow)
    (h : parseU64Array r.ids = none ∨ parseU64Array r.values = none) :
    applyFullRow w b r = b := by
  unfold applyFullRow
  rcases h with h | h
  · simp [fullIdsOf, h]
  · simp [fullValsOf, h]

/-- C10: a stored row whose `ids` or `values` column fails to parse as a JSON
array of `u64` (malformed text or an element at or above `2^64`) is skipped by
the replay: the per-collection balance query and the full-collection query
return exactly what they return without that row, and the query itself still
succeeds (the replay is total). -/
theorem bad_parse_rows_contribute_nothing (wallet : String)
    (pre post : List Row) (r : Row) (pre2 post2 : List FullRow) (r2 : FullRow)
    (h : r.ids.bind parseU64Array = none ∨ r.values.bind parseU64Array = none)
    (h2 : parseU64Array r2.ids = none ∨ parseU64Array r2.values = none) :
    get_entire_collection_for_address wallet (pre ++ r :: post) =
      get_entire_collection_for_address wallet (pre ++ post) ∧
    get_user_full_collection wallet (pre2 ++ r2 :: post2) =
      get_user_full_collection wallet (pre2 ++ post2) := by
  constructor
  · funext i
    unfold get_entire_collection_for_address balancesFn
    rw [List.foldl_append, List.foldl_append, List.foldl_cons,
      applyRowBal_badParse _ _ _ h]
  · funext c a i
    unfold get_user_full_collection userBal
    rw [List.foldl_append, List.foldl_append, List.foldl_cons,
      applyFullRow_badParse _ _ _ h2]

/-- Witness for C10: a row whose `values` holds an element above `2^64 - 1` and
a full-collection row with non-JSON ids are both ignored. -/
theorem bad_parse_rows_contribute_nothing_witness :
    ((⟨some "0x00", some "0xab", some "[7]", some "[99999999999999999999]"⟩ : Row).ids.bind
        parseU64Array = none ∨
      (⟨some "0x00", some "0xab", some "[7]", some "[99999999999999999999]"⟩ : Row).values.bind
        parseU64Array = none) ∧
    (parseU64Array (⟨"fantom", "0xc0", "0x00", "0xab", "oops", "[1]"⟩ : FullRow).ids = none ∨
      parseU64Array (⟨"fantom", "0xc0", "0x00", "0xab", "oops", "[1]"⟩ : FullRow).values = none) ∧
    get_entire_collection_for_address "0xab"
        ([] ++ (⟨some "0x00", some "0xab", some "[7]", some "[99999999999999999999]"⟩ : Row) ::
          [⟨some "0x00", some "0xab", some "[7]", some "[3]"⟩]) =
      get_entire_collection_for_address "0xab"
        ([] ++ [⟨some "0x00", some "0xab", some "[7]", some "[3]"⟩]) :=
  ⟨Or.inr (by decide), Or.inl (by decide),
    (bad_parse_rows_contribute_nothing "0xab" []
      [⟨some "0x00", some "0xab", some "[7]", some "[3]"⟩]
      ⟨some "0x00", some "0xab", some "[7]", some "[99999999999999999999]"⟩
      [] [] ⟨"fantom", "0xc0", "0x00", "0xab", "oops", "[1]"⟩
      (Or.inr (by decide)) (Or.inl (by decide))).1⟩

/-! ### C5: pruning of non-positive balances -/

/-- C5 counterexample: the claim says every query shape prunes entries with
balance at or below zero, but `get_user_full_collection` only removes exact
zeros (`retain(|_, v| v != 0)`, src/backend/queries.rs line 296): a wallet that
only ever sent token 9 ends up with a NEGATIVE balance in the returned
collection. -/
theorem get_user_full_collection_keeps_negative :
    get_user_full_collection "0xAAAA"
        [⟨"fantom", "0xc0", "0xaaaa", "0xbbbb", "[9]", "[5]"⟩] "fantom" "0xc0" 9 =
      some (-5) ∧ (-5 : ℤ) ≤ 0 := by
  constructor
  · decide
  · decide

/-- C5 amended: the per-collection balance query and the token-owners query
output only positive balances, but the full-collection query prunes only exact
zeros, and a negative balance can appear in its output. -/
theorem nonpositive_pruning_per_query (wallet : String) (rows : List Row)
    (frows : List FullRow) (i tid : ℕ) (a c ca : String) (v : ℤ) :
    (get_entire_collection_for_address wallet rows i = some v → 0 < v) ∧
    (get_token_owners rows tid a = true → 0 < ownersBal rows tid a) ∧
    (get_user_full_collection wallet frows c ca i ≠ some 0) ∧
    (∃ (w' : String) (frows' : List FullRow) (c' ca' : String) (i' : ℕ) (v' : ℤ),
      get_user_full_collection w' frows' c' ca' i' = some v' ∧ v' < 0) := by
  refine ⟨?_, ?_, ?_, ?_⟩
  · unfold get_entire_collection_for_address
    intro h
    by_cases hb : 0 < balancesFn (lowerStr wallet) rows i
    · rw [if_pos hb] at h
      injection h with hv
      omega
    · simp [hb] at h
  · unfold get_token_owners
    intro h
    simp only [Bool.and_eq_true, decide_eq_true_eq] at h
    exact h.2
  · unfold get_user_full_collection
    by_cases hb : userBal (lowerStr wallet) frows c ca i ≠ 0 <;> simp [hb]
  · exact ⟨"0xAAAA", [⟨"fantom", "0xc0", "0xaaaa", "0xbbbb", "[9]", "[5]"⟩],
      "fantom", "0xc0", 9, -5, by decide, by decide⟩

/-- Witness for the amended C5 at a concrete store: a positive balance passes
through the per-collection query, and a mixed store for the owners query. -/
theorem nonpositive_pruning_per_query_witness :
    (get_entire_collection_for_address "0xab"
        [⟨some "0x00", some "0xab", some "[7]", some "[3]"⟩] 7 = some 3 → (0 : ℤ) < 3) ∧
    (get_user_full_collection "0xab"
        [⟨"fantom", "0xc0", "0x00", "0xab", "[7]", "[3]"⟩] "fantom" "0xc0" 7 ≠ some 0) :=
  ⟨fun h => by
      have := (nonpositive_pruning_per_query "0xab"
        [⟨some "0x00", some "0xab", some "[7]", some "[3]"⟩]
        [⟨"fantom", "0xc0", "0x00", "0xab", "[7]", "[3]"⟩] 7 7 "0xq" "fantom" "0xc0" 3).1
      exact this h,
    (nonpositive_pruning_per_query "0xab"
      [⟨some "0x00", some "0xab", some "[7]", some "[3]"⟩]
      [⟨"fantom", "0xc0", "0x00", "0xab", "[7]", "[3]"⟩] 7 7 "0xq" "fantom" "0xc0" 3).2.2.1⟩

/-! ### C6: existing tokens of a collection (`get_entire_collection`) -/

def zeroAddr : String := "0x0000000000000000000000000000000000000000"

/-- The SQL `WHERE` clause of `get_entire_collection` (src/backend/queries.rs
lines 112-123): case-insensitively, `from` is the zero address or `to` is the
zero or dead address.  `LOWER(NULL)` matches nothing. -/
def sqlMintBurnFilter (e : Row) : Bool :=
  (e.from_address.map lowerStr = some zeroAddr) ||
  (e.to_address.map lowerStr = some zeroAddr) ||
  (e.to_address.map lowerStr = some deadLower)

/-- The `multiplier` of src/backend/queries.rs lines 144-152: note the
comparisons are EXACT string equality against the lowercase zero-address
constant and the mixed-case dead-address constant `0x…dEaD`, not
case-insensitive ones; `continue` is modelled as `none`. -/
def multiplierOf (e : Row) : Option ℤ :=
  if e.from_address = some zeroAddr then some 1
  else if e.to_address = some deadMixed ∨ e.to_address = some zeroAddr then some (-1)
  else none

/-- One row applied to the `existing_tokens` count map
(`*existing_tokens.entry(id).or_insert(0) += value as i64 * multiplier`). -/
def applyMintBurn (b : ℕ → ℤ) (e : Row) : ℕ → ℤ :=
  match multiplierOf e with
  | none => b
  | some m =>
    (List.zip (idsOf e) (valsU64 e)).foldl (fun b p => addAt b p.1 (toI64 p.2 * m)) b

def existingCount (rows : List Row) : ℕ → ℤ :=
  (rows.filter sqlMintBurnFilter).foldl applyMintBurn (fun _ => 0)

/-- Model of `get_entire_collection` (src/backend/queries.rs lines 99-165),
observed as membership of a token id in the returned vector: the ids with
positive count.  The vector is produced by iterating a `HashMap`, whose order
is unspecified, so only the membership is modelled. -/
def get_entire_collection (rows : List Row) (i : ℕ) : Bool :=
  decide (0 < existingCount rows i)

/-- Per-row value mass of token `i`, summed over `ids.zip(values)` with the
code's `value as i64` cast. -/
def codeValSum (e : Row) (i : ℕ) : ℤ :=
  (((List.zip (idsOf e) (valsU64 e)).filter (fun p => p.1 = i)).map
    (fun p => toI64 p.2)).sum

/-- The claim's net count, following the spec's words: plus the event values
when `from` IS (case-insensitively) the zero address, minus the event values
when the recipient is the zero address or the dead address. -/
def existingCountSpec (rows : List Row) (i : ℕ) : ℤ :=
  ((rows.filter (fun e => e.from_address.map lowerStr = some zeroAddr)).map
    (fun e => codeValSum e i)).sum -
  ((rows.filter (fun e =>
      e.to_address.map lowerStr = some zeroAddr ||
      e.to_address.map lowerStr = some deadLower)).map
    (fun e => codeValSum e i)).sum

/-- The count the code actually computes, written as a sum in the amended
claim's words: plus values when the stored `from_address` is exactly the
lowercase zero-address string; minus values when `from_address` is not that
string and the stored `to_address` is exactly the mixed-case `0x…dEaD`
constant or exactly the lowercase zero-address string. -/
def netAmended (rows : List Row) (i : ℕ) : ℤ :=
  ((rows.filter (fun e => e.from_address = some zeroAddr)).map
    (fun e => codeValSum e i)).sum -
  ((rows.filter (fun e =>
      e.from_address ≠ some zeroAddr ∧
      (e.to_address = some deadMixed ∨ e.to_address = some zeroAddr))).map
    (fun e => codeValSum e i)).sum

/-- C6 counterexample: a mint of 10 of token 1 followed by a burn of all 10 to
the dead address, both stored lowercase as the indexer writes them.  The
claim's net count is 0, so the id should be excluded, but the code's exact
string comparison against the mixed-case `0x…dEaD` constant misses the
lowercase stored row and never subtracts the burn: the id is returned. -/
theorem get_entire_collection_dead_burn_ignored :
    get_entire_collection
        [⟨some zeroAddr, some "0xaaaa", some "[1]", some "[10]"⟩,
         ⟨some "0xaaaa", some deadLower, some "[1]", some "[10]"⟩] 1 = true ∧
    existingCountSpec
        [⟨some zeroAddr, some "0xaaaa", some "[1]", some "[10]"⟩,
         ⟨some "0xaaaa", some deadLower, some "[1]", some "[10]"⟩] 1 = 0 := by
  constructor
  · decide
  · decide

lemma addAt_fold_at (g : ℕ × ℕ → ℤ) (l : List (ℕ × ℕ)) (b : ℕ → ℤ) (i : ℕ) :
    (l.foldl (fun b p => addAt b p.1 (g p)) b) i =
      b i + (l.map (fun p => if p.1 = i then g p else 0)).sum := by
  induction l generalizing b with
  | nil => simp
  | cons p l ih =>
    simp only [List.foldl_cons, List.map_cons, List.sum_cons]
    rw [ih]
    unfold addAt
    by_cases hi : p.1 = i
    · subst hi
      simp
      ring
    · have hi' : ¬ i = p.1 := fun h => hi h.symm
      simp [hi, hi']

lemma sum_ite_filter (l : List (ℕ × ℕ)) (h : ℕ × ℕ → ℤ) (i : ℕ) :
    (l.map (fun p => if p.1 = i then h p else 0)).sum =
      ((l.filter (fun p => p.1 = i)).map h).sum := by
  induction l with
  | nil => simp
  | cons p l ih =>
    by_cases hi : p.1 = i <;> simp [List.filter_cons, hi, ih]

/-- Per-row contribution of the code's count map. -/
def rowMintBurn (e : Row) (i : ℕ) : ℤ :=
  match multiplierOf e with
  | none => 0
  | some m => codeValSum e i * m

lemma applyMintBurn_at (b : ℕ → ℤ) (e : Row) (i : ℕ) :
    applyMintBurn b e i = b i + rowMintBurn e i := by
  unfold applyMintBurn rowMintBurn
  cases hm : multiplierOf e with
  | none => simp
  | some m =>
    dsimp only
    rw [addAt_fold_at, sum_ite_filter]
    unfold codeValSum
    congr 1
    generalize ((List.zip (idsOf e) (valsU64 e)).filter (fun p => p.1 = i)) = l
    induction l with
    | nil => simp
    | cons p l ih => simp [ih]; ring

lemma mintBurn_fold_at (rows : List Row) (b : ℕ → ℤ) (i : ℕ) :
    rows.foldl applyMintBurn b i = b i + (rows.map (fun e => rowMintBurn e i)).sum := by
  induction rows generalizing b with
  | nil => simp
  | cons e rows ih =>
    simp only [List.foldl_cons, List.map_cons, List.sum_cons]
    rw [ih, applyMintBurn_at]
    ring

lemma multiplier_some_passes_filter (e : Row) (m : ℤ)
    (h : multiplierOf e = some m) : sqlMintBurnFilter e = true := by
  unfold multiplierOf at h
  unfold sqlMintBurnFilter
  by_cases h1 : e.from_address = some zeroAddr
  · have hz : lowerStr zeroAddr = zeroAddr := by decide
    simp [h1, hz]
  · rw [if_neg h1] at h
    by_cases h2 : e.to_address = some deadMixed ∨ e.to_address = some zeroAddr
    · rcases h2 with h2 | h2
      · have hd : lowerStr deadMixed = deadLower := by decide
        simp [h2, hd]
      · have hz : lowerStr zeroAddr = zeroAddr := by decide
        simp [h2, hz]
    · rw [if_neg h2] at h
      exact Option.noConfusion h

lemma filtered_sum_eq_full (rows : List Row) (i : ℕ) :
    ((rows.filter sqlMintBurnFilter).map (fun e => rowMintBurn e i)).sum =
      (rows.map (fun e => rowMintBurn e i)).sum := by
  induction rows with
  | nil => simp
  | cons e rows ih =>
    by_cases hf : sqlMintBurnFilter e = true
    · simp [List.filter_cons, hf, ih]
    · have hz : rowMintBurn e i = 0 := by
        unfold rowMintBurn
        cases hm : multiplierOf e with
        | none => simp
        | some m => exact absurd (multiplier_some_passes_filter e m hm) hf
      simp [List.filter_cons, hf, ih, hz]

lemma rowMintBurn_cases (e : Row) (i : ℕ) :
    rowMintBurn e i =
      (if e.from_address = some zeroAddr then codeValSum e i else 0) -
      (if e.from_address ≠ some zeroAddr ∧
          (e.to_address = some deadMixed ∨ e.to_address = some zeroAddr) then
        codeValSum e i else 0) := by
  unfold rowMintBurn multiplierOf
  by_cases h1 : e.from_address = some zeroAddr
  · simp [h1]
  · by_cases h2 : e.to_address = some deadMixed ∨ e.to_address = some zeroAddr <;>
      simp [h1, h2] <;> ring

lemma existingCount_eq_netAmended (rows : List Row) (i : ℕ) :
    existingCount rows i = netAmended rows i := by
  unfold existingCount netAmended
  rw [mintBurn_fold_at, filtered_sum_eq_full]
  simp only [zero_add]
  induction rows with
  | nil => simp
  | cons e rows ih =>
    by_cases h1 : e.from_address = some zeroAddr <;>
      by_cases hd : e.to_address = some deadMixed ∨ e.to_address = some zeroAddr <;>
      simp [List.filter_cons, h1, hd, rowMintBurn_cases e i, ih] <;> ring

/-- C6 amended: `get_entire_collection` returns (in unspecified order) exactly
the ids whose net count is positive, where values are added on events whose
stored `from_address` is exactly the lowercase zero-address string and
subtracted on remaining events whose stored `to_address` is exactly the
lowercase zero-address string or exactly the mixed-case `0x…dEaD` constant —
burns stored with a lowercase dead address are NOT subtracted — and the result
is unchanged by permuting the events. -/
theorem get_entire_collection_amended (rows rows' : List Row) (i : ℕ) :
    (get_entire_collection rows i = decide (0 < netAmended rows i)) ∧
    (rows.Perm rows' → get_entire_collection rows i = get_entire_collection rows' i) := by
  constructor
  · unfold get_entire_collection
    rw [existingCount_eq_netAmended]
  · intro hperm
    unfold get_entire_collection
    rw [existingCount_eq_netAmended, existingCount_eq_netAmended]
    unfold netAmended
    rw [List.Perm.sum_eq (List.Perm.map _ (List.Perm.filter _ hperm)),
      List.Perm.sum_eq (List.Perm.map _ (List.Perm.filter _ hperm))]

/-- Witness for the amended C6: the mint-then-lowercase-dead-burn store, in
both orders. -/
theorem get_entire_collection_amended_witness :
    (get_entire_collection
        [⟨some zeroAddr, some "0xaaaa", some "[1]", some "[10]"⟩,
         ⟨some "0xaaaa", some deadLower, some "[1]", some "[10]"⟩] 1 =
      decide (0 < netAmended
        [⟨some zeroAddr, some "0xaaaa", some "[1]", some "[10]"⟩,
         ⟨some "0xaaaa", some deadLower, some "[1]", some "[10]"⟩] 1)) ∧
    get_entire_collection
        [⟨some zeroAddr, some "0xaaaa", some "[1]", some "[10]"⟩,
         ⟨some "0xaaaa", some deadLower, some "[1]", some "[10]"⟩] 1 =
      get_entire_collection
        [⟨some "0xaaaa", some deadLower, some "[1]", some "[10]"⟩,
         ⟨some zeroAddr, some "0xaaaa", some "[1]", some "[10]"⟩] 1 :=
  ⟨(get_entire_collection_amended
      [⟨some zeroAddr, some "0xaaaa", some "[1]", some "[10]"⟩,
       ⟨some "0xaaaa", some deadLower, some "[1]", some "[10]"⟩]
      [⟨some "0xaaaa", some deadLower, some "[1]", some "[10]"⟩,
       ⟨some zeroAddr, some "0xaaaa", some "[1]", some "[10]"⟩] 1).1,
   (get_entire_collection_amended
      [⟨some zeroAddr, some "0xaaaa", some "[1]", some "[10]"⟩,
       ⟨some "0xaaaa", some deadLower, some "[1]", some "[10]"⟩]
      [⟨some "0xaaaa", some deadLower, some "[1]", some "[10]"⟩,
       ⟨some zeroAddr, some "0xaaaa", some "[1]", some "[10]"⟩] 1).2 (by decide)⟩

/-! ### C8: `points_to_level` (src/backend/usernames.rs lines 55-77)

The source computes thresholds in `f64` with `a = 100.0`, `r = 1.0625`.  Both
`1.0625 = 17/16` and `r - 1 = 1/16` are exact binary fractions, and
`r^k = 17^k / 2^(4k)` is exactly representable for `k ≤ 12` (`17^12 < 2^53`),
so for the small levels reached by the concrete statements below the `f64`
comparisons coincide with exact rational arithmetic; `f64` is modelled as ℚ. -/

/-- Cumulative threshold `a * (r^k - 1) / (r - 1)` checked by the loop at
`level = k + 1`. -/
def thr (k : ℕ) : ℚ :=
  100 * ((17 / 16 : ℚ) ^ k - 1) / (17 / 16 - 1)

/-- The `while level <= 60` loop: second argument counts the remaining
iterations (60 at entry, level starting at 1); on exhaustion return 60. -/
def levelScan (score : ℤ) : ℕ → ℕ → ℤ
  | _, 0 => 60
  | level, r + 1 =>
    if (score : ℚ) < thr (level - 1) then (level : ℤ) - 1
    else levelScan score (level + 1) r

def points_to_level (score : ℤ) : ℤ :=
  if score = 0 then 0 else levelScan score 1 60

lemma levelScan_succ (score : ℤ) (level r : ℕ) :
    levelScan score level (r + 1) =
      if (score : ℚ) < thr (level - 1) then (level : ℤ) - 1
      else levelScan score (level + 1) r := rfl

lemma levelScan_no_hit (score : ℤ) :
    ∀ (r m : ℕ), (∀ j, m ≤ j → j < m + r → ¬ ((score : ℚ) < thr j)) →
      levelScan score (m + 1) r = 60 := by
  intro r
  induction r with
  | zero => intro m _; rfl
  | succ r ih =>
    intro m h
    rw [levelScan_succ]
    have hm : ¬ ((score : ℚ) < thr ((m + 1) - 1)) := by
      have : (m + 1) - 1 = m := rfl
      rw [this]
      exact h m le_rfl (by omega)
    rw [if_neg hm]
    exact ih (m + 1) (fun j hj1 hj2 => h j (by omega) (by omega))

lemma levelScan_hit (score : ℤ) :
    ∀ (r m j0 : ℕ), m ≤ j0 → j0 < m + r → ((score : ℚ) < thr j0) →
      (∀ j, m ≤ j → j < j0 → ¬ ((score : ℚ) < thr j)) →
      levelScan score (m + 1) r = (j0 : ℤ) := by
  intro r
  induction r with
  | zero => intro m j0 h1 h2 _ _; omega
  | succ r ih =>
    intro m j0 hm hlt hhit hleast
    rw [levelScan_succ]
    by_cases hfirst : (score : ℚ) < thr ((m + 1) - 1)
    · have hj0 : j0 = m := by
        by_contra hne
        exact hleast m le_rfl (by omega) hfirst
      rw [if_pos hfirst]
      subst hj0
      push_cast
      ring
    · rw [if_neg hfirst]
      have hne : j0 ≠ m := by
        intro h
        subst h
        exact hfirst hhit
      exact ih (m + 1) j0 (by omega) (by omega) hhit
        (fun j hj1 hj2 => hleast j (by omega) hj2)

lemma thr_mono {j k : ℕ} (h : j ≤ k) : thr j ≤ thr k := by
  unfold thr
  have h1 : (1 : ℚ) ≤ 17 / 16 := by norm_num
  have hp : (17 / 16 : ℚ) ^ j ≤ (17 / 16 : ℚ) ^ k := pow_le_pow_right h1 h
  have hc : (0 : ℚ) < 17 / 16 - 1 := by norm_num
  rw [div_le_div_iff_of_pos_right hc]
  linarith

lemma points_to_level_100 : points_to_level 100 = 2 := by
  have hpt : points_to_level 100 = levelScan 100 1 60 := by
    unfold points_to_level
    norm_num
  rw [hpt]
  have := levelScan_hit 100 60 0 2 (by omega) (by omega)
    (by norm_num [thr])
    (fun j _ hj => by interval_cases j <;> norm_num [thr])
  simpa using this

lemma points_to_level_1e9 : points_to_level (10 ^ 9) = 60 := by
  have hpt : points_to_level (10 ^ 9) = levelScan (10 ^ 9) 1 60 := by
    unfold points_to_level
    norm_num
  rw [hpt]
  have h59 : thr 59 < (((10 : ℤ) ^ 9 : ℤ) : ℚ) := by norm_num [thr]
  have := levelScan_no_hit (10 ^ 9) 60 0 (fun j _ hj => by
    have hmono : thr j ≤ thr 59 := thr_mono (by omega)
    exact not_lt.mpr (le_of_lt (lt_of_le_of_lt hmono h59)))
  simpa using this

/-- C8 counterexample: the spec says `points_to_level(100) = 1` (one less than
the smallest level whose threshold exceeds the score), but the loop checks
`r^(level-1)` and returns `level - 1`, which is the smallest level whose
threshold exceeds the score itself: the code returns 2 at score 100. -/
theorem points_to_level_100_is_two :
    points_to_level 100 = 2 ∧ points_to_level 100 ≠ 1 := by
  refine ⟨points_to_level_100, ?_⟩
  rw [points_to_level_100]
  decide

/-- C8 amended: `points_to_level` returns 0 at score 0; for a positive score it
returns the smallest level `L` in `[1, 59]` whose cumulative threshold
`100 * (1.0625^L - 1) / (1.0625 - 1)` strictly exceeds the score — not one
less than it — and 60 when no such level exists; in particular
`points_to_level(100) = 2` and `points_to_level(10^9) = 60`. -/
theorem points_to_level_amended :
    points_to_level 0 = 0 ∧ points_to_level 100 = 2 ∧
    points_to_level (10 ^ 9) = 60 ∧
    ∀ score : ℤ, 0 < score →
      (∀ L : ℕ, 1 ≤ L → L ≤ 59 → (score : ℚ) < thr L →
        1 ≤ points_to_level score ∧ points_to_level score ≤ (L : ℤ) ∧
        (score : ℚ) < thr (points_to_level score).toNat) ∧
      ((∀ L : ℕ, 1 ≤ L → L ≤ 59 → ¬ ((score : ℚ) < thr L)) →
        points_to_level score = 60) := by
  refine ⟨by unfold points_to_level; norm_num, points_to_level_100,
    points_to_level_1e9, ?_⟩
  intro score hpos
  have hscore0 : score ≠ 0 := by omega
  have hq : (0 : ℚ) < (score : ℚ) := by exact_mod_cast hpos
  have h0 : ¬ ((score : ℚ) < thr 0) := by
    have ht : thr 0 = 0 := by norm_num [thr]
    rw [ht]
    exact not_lt.mpr (le_of_lt hq)
  have hpt : points_to_level score = levelScan score 1 60 := by
    unfold points_to_level
    rw [if_neg hscore0]
  constructor
  · intro L hL1 hL59 hLhit
    have hex : ∃ j, (score : ℚ) < thr j := ⟨L, hLhit⟩
    set j0 := Nat.find hex with hj0def
    have hj0hit : (score : ℚ) < thr j0 := Nat.find_spec hex
    have hj0min : ∀ j, j < j0 → ¬ ((score : ℚ) < thr j) :=
      fun j hj => Nat.find_min hex hj
    have hj0le : j0 ≤ L := Nat.find_min' hex hLhit
    have hj0pos : 1 ≤ j0 := by
      rcases Nat.eq_zero_or_pos j0 with h | h
      · exact absurd (h ▸ hj0hit) h0
      · exact h
    have hscan : levelScan score 1 60 = (j0 : ℤ) := by
      have := levelScan_hit score 60 0 j0 (Nat.zero_le _) (by omega) hj0hit
        (fun j _ hj => hj0min j hj)
      simpa using this
    refine ⟨?_, ?_, ?_⟩
    · rw [hpt, hscan]
      exact_mod_cast hj0pos
    · rw [hpt, hscan]
      exact_mod_cast hj0le
    · rw [hpt, hscan]
      simpa using hj0hit
  · intro hnone
    rw [hpt]
    have := levelScan_no_hit score 60 0 (fun j _ hj => by
      rcases Nat.eq_zero_or_pos j with h | h
      · exact h ▸ h0
      · exact hnone j h (by omega))
    simpa using this

/-- Witness for the amended C8 at score 150 and level 2. -/
theorem points_to_level_amended_witness :
    (0 : ℤ) < 150 ∧ 1 ≤ points_to_level 150 ∧ points_to_level 150 ≤ 2 ∧
    ((150 : ℤ) : ℚ) < thr (points_to_level 150).toNat :=
  ⟨by decide,
    ((points_to_level_amended.2.2.2 150 (by decide)).1 2 (by decide) (by decide)
      (by norm_num [thr])).1,
    ((points_to_level_amended.2.2.2 150 (by decide)).1 2 (by decide) (by decide)
      (by norm_num [thr])).2.1,
    ((points_to_level_amended.2.2.2 150 (by decide)).1 2 (by decide) (by decide)
      (by norm_num [thr])).2.2⟩

/-! ### C9: the leaderboard cache (src/backend/api.rs lines 406-510)

`handler_leaderboard` calls `get_or_update_all_users_collections(client, false)`.
That function locks `ALL_USERS_LEADERBOARD_CACHE` and, when the cache is `None`
OR `force_update` holds, recomputes the leaderboard from the database and the
rarity files, stores it in the cache, and returns it; otherwise it returns a
clone of the cached value.  The expensive computation is modelled by the
`fresh` parameter (the leaderboard the compute path would produce); scores are
`f64`, modelled as ℚ. -/

/-- Outcome of one `get_or_update_all_users_collections` call: the cache cell
after the call, the returned value, and whether the compute path ran. -/
structure CacheOutcome where
  newCache : Option (List (String × ℚ))
  returned : Option (List (String × ℚ))
  recomputed : Bool
deriving DecidableEq

/-- Model of `get_or_update_all_users_collections` acting on the cache cell. -/
def get_or_update_all_users_collections (cache : Option (List (String × ℚ)))
    (force_update : Bool) (fresh : List (String × ℚ)) : CacheOutcome :=
  if cache.isNone || force_update then
    { newCache := some fresh, returned := some fresh, recomputed := true }
  else
    { newCache := cache, returned := cache, recomputed := false }

/-- C9 counterexample: on first boot (empty cache) a leaderboard read — a call
with `force_update = false` — runs the computation, overwrites the cache, and
returns the freshly computed snapshot rather than an empty one. -/
theorem leaderboard_read_computes_on_empty_cache :
    (get_or_update_all_users_collections none false [("alice", 123400)]).recomputed = true ∧
    (get_or_update_all_users_collections none false [("alice", 123400)]).newCache =
      some [("alice", 123400)] ∧
    (get_or_update_all_users_collections none false [("alice", 123400)]).returned ≠
      some [] := by
  refine ⟨rfl, rfl, ?_⟩
  decide

/-- C9 amended: a leaderboard read returns a clone of the cached snapshot and
leaves the cache unchanged whenever a snapshot exists; when none has been
computed since boot, the read itself computes one, stores it in the cache, and
returns it (never an empty placeholder). -/
theorem leaderboard_read_cache_behavior (cache : Option (List (String × ℚ)))
    (fresh l : List (String × ℚ)) :
    (cache = some l →
      get_or_update_all_users_collections cache false fresh =
        ⟨some l, some l, false⟩) ∧
    (cache = none →
      get_or_update_all_users_collections cache false fresh =
        ⟨some fresh, some fresh, true⟩) := by
  constructor
  · intro h
    subst h
    rfl
  · intro h
    subst h
    rfl

/-- Witness for the amended C9 on both cache states. -/
theorem leaderboard_read_cache_behavior_witness :
    (get_or_update_all_users_collections (some [("bob", 7)]) false [("alice", 1)] =
      ⟨some [("bob", 7)], some [("bob", 7)], false⟩) ∧
    (get_or_update_all_users_collections none false [("alice", 1)] =
      ⟨some [("alice", 1)], some [("alice", 1)], true⟩) :=
  ⟨(leaderboard_read_cache_behavior (some [("bob", 7)]) [("alice", 1)] [("bob", 7)]).1 rfl,
   (leaderboard_read_cache_behavior none [("alice", 1)] [("bob", 7)]).2 rfl⟩

/-! ### C7: the eth_getLogs retry loop (src/indexer/remote_calls.rs lines
18-19 and 278-327)

`INITIAL_RETRY_DELAY` is 10 seconds (not 2) and `MAX_RETRY_COUNT` is 5.  The
loop calls `eth().logs(..)`; on failure, if `attempts >= MAX_RETRY_COUNT` it
panics, otherwise it sleeps `retry_delay`, doubles the delay and increments
`attempts`.  The model takes the number of consecutive failures the endpoint
produces and returns `some (calls, sleeps)` on success (total calls made and
the sleep durations in seconds) or `none` for the panic.  The last structural
argument counts loop iterations still possible (6 suffices: `attempts` can
only reach 5). -/

def retryStep (failCount : ℕ) : ℕ → ℕ → List ℕ → ℕ → Option (ℕ × List ℕ)
  | a, _, sleeps, 0 => if failCount ≤ a then some (a + 1, sleeps.reverse) else none
  | a, d, sleeps, rem + 1 =>
    if failCount ≤ a then some (a + 1, sleeps.reverse)
    else if 5 ≤ a then none
    else retryStep failCount (a + 1) (d * 2) (d :: sleeps) rem

/-- The retry loop started as in `execute`: `attempts = 0`,
`retry_delay = INITIAL_RETRY_DELAY = 10`. -/
def eventFetchRetry (failCount : ℕ) : Option (ℕ × List ℕ) :=
  retryStep failCount 0 10 [] 6

/-- C7 counterexample: the first retry sleeps 10 seconds, not 2, and five
consecutive failures still end in a successful sixth call, so more than the
claimed maximum of 5 attempts are made. -/
theorem eventFetchRetry_delay_and_attempts :
    eventFetchRetry 1 = some (2, [10]) ∧ (10 : ℕ) ≠ 2 ∧
    eventFetchRetry 5 = some (6, [10, 20, 40, 80, 160]) ∧ ¬ (6 ≤ 5) := by
  refine ⟨rfl, by decide, rfl, by decide⟩

/-- C7 amended: each eth_getLogs request is retried with exponential backoff
starting at 10 seconds and doubling, with at most 5 retries after the first
call (6 calls in total); when the sixth call also fails the fetching task
panics (modelled as `none`) — the indexer binary then propagates the panic
through `task.await.unwrap()` / `expect`, so no commit happens for that tick
but the claim's "process survives" does not hold either. -/
theorem eventFetchRetry_amended (f : ℕ) :
    (f ≤ 5 → eventFetchRetry f = some (f + 1, (List.range f).map (fun k => 10 * 2 ^ k))) ∧
    (6 ≤ f → eventFetchRetry f = none) := by
  constructor
  · intro hf
    interval_cases f <;> rfl
  · intro hf
    have h0 : ¬ f ≤ 0 := by omega
    have h1 : ¬ f ≤ 1 := by omega
    have h2 : ¬ f ≤ 2 := by omega
    have h3 : ¬ f ≤ 3 := by omega
    have h4 : ¬ f ≤ 4 := by omega
    have h5 : ¬ f ≤ 5 := by omega
    unfold eventFetchRetry
    unfold retryStep
    rw [if_neg h0, if_neg (by decide : ¬ (5 : ℕ) ≤ 0)]
    unfold retryStep
    rw [if_neg h1, if_neg (by decide : ¬ (5 : ℕ) ≤ 1)]
    unfold retryStep
    rw [if_neg h2, if_neg (by decide : ¬ (5 : ℕ) ≤ 2)]
    unfold retryStep
    rw [if_neg h3, if_neg (by decide : ¬ (5 : ℕ) ≤ 3)]
    unfold retryStep
    rw [if_neg h4, if_neg (by decide : ¬ (5 : ℕ) ≤ 4)]
    unfold retryStep
    rw [if_neg h5, if_pos (by decide : (5 : ℕ) ≤ 5)]

/-- Witness for the amended C7 at 3 failures: four calls, sleeps 10, 20, 40. -/
theorem eventFetchRetry_amended_witness :
    (3 : ℕ) ≤ 5 ∧ eventFetchRetry 3 = some (4, (List.range 3).map (fun k => 10 * 2 ^ k)) :=
  ⟨by decide, (eventFetchRetry_amended 3).1 (by decide)⟩

/-! ### Indexer events (src/indexer/queries.rs lines 42-106)

`indexer::queries::Event` carries the decoded transfer; the `contract` field
(the config entry used only to resolve the DB contract id) is dropped here and
contract ids are passed explicitly. -/

structure IdxEvent where
  operator : String
  from_address : String
  to_address : String
  ids : List ℕ
  values : List ℕ
  block_number : ℕ
  transaction_hash : String
deriving DecidableEq

/-- `Event::new`: rejects mismatched `ids`/`values` lengths. -/
def eventNew (operator from_address to_address : String) (ids values : List ℕ)
    (block_number : ℕ) (transaction_hash : String) : Option IdxEvent :=
  if ids.length = values.length then
    some ⟨operator, from_address, to_address, ids, values, block_number, transaction_hash⟩
  else none

/-! ### C1: ERC-721 Transfer decoding (src/indexer/remote_calls.rs 349-370) -/

/-- Lowercase hex digit, as produced by the `Debug` rendering of `H160`. -/
def hexDigit (n : ℕ) : Char :=
  if n < 10 then Char.ofNat (48 + n) else Char.ofNat (87 + n)

/-- Fixed-width big-endian hex rendering. -/
def hexDigits : ℕ → ℕ → List Char
  | 0, _ => []
  | w + 1, v => hexDigits w (v / 16) ++ [hexDigit (v % 16)]

/-- `format!("{:?}", h160)`: `0x` followed by 40 lowercase hex digits. -/
def formatH160 (v : ℕ) : String :=
  "0x" ++ String.mk (hexDigits 40 (v % 2 ^ 160))

/-- `format!("{:?}", h256)`: `0x` followed by 64 lowercase hex digits. -/
def formatH256 (v : ℕ) : String :=
  "0x" ++ String.mk (hexDigits 64 (v % 2 ^ 256))

/-- `H160::try_from(h256)`: bytes 12..32 of the big-endian word, i.e. the
value modulo `2^160`. -/
def h256ToH160 (t : ℕ) : ℕ := t % 2 ^ 160

/-- An ERC-721 `Transfer` log: `topics[0]` is the recognised Transfer topic
(dispatch already done by the caller), `topics[1]` = indexed `from`,
`topics[2]` = indexed `to`, `topics[3]` = indexed `tokenId`, each a 256-bit
big-endian word modelled by its value. -/
structure Log721 where
  topic1 : ℕ
  topic2 : ℕ
  topic3 : ℕ
  block_number : ℕ
  transaction_hash : ℕ
deriving DecidableEq

/-- Model of `erc721_to_dbevent`: `from_address`/`to_address` are read from
`topics[1]`/`topics[2]`, the id from `topics[3]` via `U256::as_u64` (which
panics for values at or above `2^64`, modelled as `none`), and the event is
assembled by `Event::new(contract, operator, from, to, ..)` — to which the
code passes `format!("{:?}", from_address)` as the OPERATOR argument and
`format!("{:?}", to_address)` as BOTH the `from` and the `to` arguments. -/
def erc721_to_dbevent (log : Log721) : Option IdxEvent :=
  let from_address := h256ToH160 log.topic1
  let to_address := h256ToH160 log.topic2
  if log.topic3 < 2 ^ 64 then
    eventNew (formatH160 from_address) (formatH160 to_address) (formatH160 to_address)
      [log.topic3] [1] log.block_number (formatH256 log.transaction_hash)
  else none

/-- A concrete mint: `from = 0x0…0` (topics[1]), `to = 0x0…aaaa` (topics[2]),
tokenId 7. -/
def mintLog : Log721 := ⟨0, 0xaaaa, 7, 100, 1⟩

/-- C1: evaluating the decoder at a mint log shows the normalized event's
`from` equals `topics[2][12:]` (the recipient), NOT `topics[1][12:]` as the
claim states; the true sender only survives in the `operator` field.  The
`ids = [tokenId]` and `values = [1]` parts hold. -/
theorem erc721_decode_from_is_recipient :
    ((erc721_to_dbevent mintLog).map IdxEvent.from_address ≠
      some (formatH160 (h256ToH160 mintLog.topic1))) ∧
    ((erc721_to_dbevent mintLog).map IdxEvent.from_address =
      some (formatH160 (h256ToH160 mintLog.topic2))) ∧
    ((erc721_to_dbevent mintLog).map IdxEvent.to_address =
      some (formatH160 (h256ToH160 mintLog.topic2))) ∧
    ((erc721_to_dbevent mintLog).map IdxEvent.operator =
      some (formatH160 (h256ToH160 mintLog.topic1))) ∧
    ((erc721_to_dbevent mintLog).map IdxEvent.ids = some [7]) ∧
    ((erc721_to_dbevent mintLog).map IdxEvent.values = some [1]) := by
  refine ⟨by decide, by decide, by decide, by decide, by decide, by decide⟩

/-! ### C2 and C3: the event store and reconciliation writes
(src/indexer/queries.rs lines 133-254, src/bin/indexer.rs lines 76-87)

The store is the `events` table (a list of rows) plus the
`last_processed_block` column of the `contracts` table (an association list
keyed by contract id).  `contract_and_chain_to_contractid` is modelled as the
identity: the chain's contracts are given directly as their resolved ids. -/

structure DbEvent where
  contract_id : ℕ
  operator : String
  from_address : String
  to_address : String
  ids : String
  values : String
  block_number : ℕ
  transaction_hash : String
deriving DecidableEq

/-- `serde_json::to_string(&Vec<u64>)`. -/
def jsonOfList (l : List ℕ) : String :=
  "[" ++ String.intercalate "," (l.map toString) ++ "]"

structure Store where
  events : List DbEvent
  contracts : List (ℕ × ℕ)
deriving DecidableEq

/-- The `DELETE FROM events WHERE contract_id = $1 AND block_number >= $2 AND
block_number <= $3` statement. -/
def delete_events (s : Store) (cid fromB toB : ℕ) : Store :=
  { s with events := s.events.filter (fun e =>
      !(e.contract_id = cid && fromB ≤ e.block_number && e.block_number ≤ toB)) }

/-- `add_event`: the INSERT lowercases operator, from, to and the tx hash via
SQL `LOWER()` and serialises ids/values to JSON. -/
def add_event (cid : ℕ) (e : IdxEvent) (s : Store) : Store :=
  { s with events := s.events ++
      [⟨cid, lowerStr e.operator, lowerStr e.from_address, lowerStr e.to_address,
        jsonOfList e.ids, jsonOfList e.values, e.block_number,
        lowerStr e.transaction_hash⟩] }

/-- `update_last_processed_block`: UPDATE of the matching contract row. -/
def set_last_processed (s : Store) (cid toB : ℕ) : Store :=
  { s with contracts := s.contracts.map (fun p => if p.1 = cid then (p.1, toB) else p) }

/-- One contract's portion of `nuke_and_process_events_for_chain` (lines
232-251): IF the fetched map has an entry for the contract, delete the stored
events in `[from_block, to_block]` and insert the fetched ones; in every case
update `last_processed_block` to `to_block`.  When the map has NO entry (the
chain returned no events for this contract), the delete is skipped. -/
def nukeContractStep (m : ℕ → Option (List IdxEvent)) (fromB toB : ℕ)
    (s : Store) (cid : ℕ) : Store :=
  let s1 := match m cid with
    | some evs => evs.foldl (fun st e => add_event cid e st) (delete_events s cid fromB toB)
    | none => s
  set_last_processed s1 cid toB

def nuke_and_process_events_for_chain (contractIds : List ℕ)
    (m : ℕ → Option (List IdxEvent)) (fromB toB : ℕ) (s : Store) : Store :=
  contractIds.foldl (nukeContractStep m fromB toB) s

/-- A stale event at block 990 for contract 1, inside the re-scanned range. -/
def staleEvent : DbEvent := ⟨1, "0xop", "0xfrom", "0xto", "[7]", "[1]", 990, "0xtx"⟩

/-- C2: a reconciliation tick over `[900, 1000]` in which the chain reports no
events for contract 1 (the per-contract map has no entry, as built by grouping
the fetched events).  The stale stored event at block 990 is NOT deleted — the
`if let Some(new_events)` guard skips the range delete — yet
`last_processed_block` still advances to 1000, so the store keeps an event the
chain no longer reports inside the authoritative range. -/
theorem reconcile_skips_delete_when_contract_has_no_events :
    (nuke_and_process_events_for_chain [1] (fun _ => none) 900 1000
        ⟨[staleEvent], [(1, 950)]⟩).events = [staleEvent] ∧
    900 ≤ staleEvent.block_number ∧ staleEvent.block_number ≤ 1000 ∧
    (nuke_and_process_events_for_chain [1] (fun _ => none) 900 1000
        ⟨[staleEvent], [(1, 950)]⟩).contracts = [(1, 1000)] := by
  refine ⟨by decide, by decide, by decide, by decide⟩

/-! For C3 the same writes are replayed statement by statement: the Rust
function issues each DELETE/INSERT/UPDATE as an individual autocommit
statement on `tokio_postgres::Client` — there is no BEGIN/COMMIT anywhere —
so a failure after `k` statements leaves the first `k` committed. -/

inductive WriteOp where
  | delOp (cid fromB toB : ℕ)
  | insOp (cid : ℕ) (e : IdxEvent)
  | setLastOp (cid toB : ℕ)
deriving DecidableEq

def applyWrite (s : Store) : WriteOp → Store
  | WriteOp.delOp cid fromB toB => delete_events s cid fromB toB
  | WriteOp.insOp cid e => add_event cid e s
  | WriteOp.setLastOp cid toB => set_last_processed s cid toB

/-- The statement sequence `nuke_and_process_events_for_chain` sends for one
chain's tick, in order. -/
def tickWriteOps (contractIds : List ℕ) (m : ℕ → Option (List IdxEvent))
    (fromB toB : ℕ) : List WriteOp :=
  (contractIds.map (fun cid =>
    (match m cid with
     | some evs => WriteOp.delOp cid fromB toB :: evs.map (WriteOp.insOp cid)
     | none => []) ++ [WriteOp.setLastOp cid toB])).flatten

/-- State of the store after the first `okCount` statements committed and the
next one failed: the committed statements are not rolled back. -/
def runPartial (ops : List WriteOp) (okCount : ℕ) (s : Store) : Store :=
  (ops.take okCount).foldl applyWrite s

lemma foldl_applyWrite_append (l1 l2 : List WriteOp) (s : Store) :
    (l1 ++ l2).foldl applyWrite s = l2.foldl applyWrite (l1.foldl applyWrite s) :=
  List.foldl_append _ _ _ _

lemma contractOps_run (m : ℕ → Option (List IdxEvent)) (fromB toB cid : ℕ) (s : Store) :
    ((match m cid with
      | some evs => WriteOp.delOp cid fromB toB :: evs.map (WriteOp.insOp cid)
      | none => []) ++ [WriteOp.setLastOp cid toB]).foldl applyWrite s =
      nukeContractStep m fromB toB s cid := by
  unfold nukeContractStep
  cases hm : m cid with
  | none => simp [applyWrite]
  | some evs =>
    rw [foldl_applyWrite_append]
    simp only [List.foldl_cons, List.foldl_map, List.foldl]
    rfl

/-- Running the whole statement list equals the reconciliation function: the
statement decomposition is faithful. -/
lemma runAll_eq_nuke (contractIds : List ℕ) (m : ℕ → Option (List IdxEvent))
    (fromB toB : ℕ) (s : Store) :
    (tickWriteOps contractIds m fromB toB).foldl applyWrite s =
      nuke_and_process_events_for_chain contractIds m fromB toB s := by
  unfold tickWriteOps nuke_and_process_events_for_chain
  induction contractIds generalizing s with
  | nil => rfl
  | cons cid rest ih =>
    simp only [List.map_cons, List.flatten_cons, List.foldl_cons]
    rw [foldl_applyWrite_append, contractOps_run, ih]

def preStoreC3 : Store :=
  ⟨[⟨1, "0xo", "0xf", "0xt", "[7]", "[1]", 950, "0xh"⟩,
    ⟨2, "0xo", "0xf", "0xt", "[8]", "[1]", 960, "0xh"⟩], [(1, 900), (2, 900)]⟩

def fetchMapC3 : ℕ → Option (List IdxEvent) :=
  fun cid =>
    if cid = 1 then some [⟨"0xA", "0xB", "0xC", [7], [1], 995, "0xD"⟩]
    else if cid = 2 then some [⟨"0xA", "0xB", "0xC", [8], [1], 996, "0xE"⟩]
    else none

/-- C3: the tick for a chain with two contracts issues 6 autocommit statements
(delete, insert, set-last-processed per contract).  If the fourth statement
(contract 2's delete) fails, the store is left with contract 1 fully rewritten
and contract 2 untouched — a state that is neither the pre-tick store nor the
post-tick store, which could not happen had the writes run in one transaction.
Running all 6 statements reproduces `nuke_and_process_events_for_chain`
exactly (see `runAll_eq_nuke`). -/
theorem reconcile_partial_failure_is_neither_pre_nor_post :
    runPartial (tickWriteOps [1, 2] fetchMapC3 900 1000) 6 preStoreC3 =
      nuke_and_process_events_for_chain [1, 2] fetchMapC3 900 1000 preStoreC3 ∧
    (tickWriteOps [1, 2] fetchMapC3 900 1000).length = 6 ∧
    runPartial (tickWriteOps [1, 2] fetchMapC3 900 1000) 3 preStoreC3 ≠ preStoreC3 ∧
    runPartial (tickWriteOps [1, 2] fetchMapC3 900 1000) 3 preStoreC3 ≠
      nuke_and_process_events_for_chain [1, 2] fetchMapC3 900 1000 preStoreC3 := by
  refine ⟨?_, by decide, by decide, by decide⟩
  have h6 : (tickWriteOps [1, 2] fetchMapC3 900 1000).length = 6 := by decide
  unfold runPartial
  rw [show (tickWriteOps [1, 2] fetchMapC3 900 1000).take 6 =
      tickWriteOps [1, 2] fetchMapC3 900 1000 from by decide]
  exact runAll_eq_nuke [1, 2] fetchMapC3 900 1000 preStoreC3

end Afterlife
